import Mathlib

/-!
Verification development for the `mdc_dlp` scraper (`src/mdc_dlp/scrape.py`).

The Python source is shallowly embedded over `List Char`:

* `normalize_rsc_tokens`   — the six `re.sub` passes, modelled by a generic
  leftmost-scan substitution engine `reSub` with one deterministic matcher
  per pattern (each pattern here is greedy and free of backtracking).
* `strip_chunk_prefixes`   — the multiline `^\s*\d+\s*:\s*` strip.
* `extract_json_array_from_rsc` / `extract_first_object_with_id` — the
  string-literal-aware bracket scanners plus `json.loads` (the stdlib JSON
  parser is modelled by a recursive-descent parser `json_loads`).
* the HTTP layer (`requests`, BeautifulSoup) is abstracted at the boundary:
  a response is a status code plus a body text, a markup document is the
  list of its anchor `href` attributes, and `main`'s crawl becomes
  `crawlLoop`/`mainModel` over oracles for the successive responses.
-/

/-- Python's `\s` (ASCII portion), as used by the `re` patterns in the source. -/
def isPySpace (c : Char) : Bool :=
  c = ' ' || c = '\t' || c = '\n' || c = '\r' || c = '\x0b' || c = '\x0c'

/-- Character class `[@A-Za-z0-9_]` from the `$`-reference patterns. -/
def isRefChar (c : Char) : Bool :=
  ('A' ≤ c && c ≤ 'Z') || ('a' ≤ c && c ≤ 'z') || ('0' ≤ c && c ≤ '9') || c = '@' || c = '_'

/-- Character class `[^\s,\]\}"]` from the unquoted `$D` pattern. -/
def isDTokChar (c : Char) : Bool :=
  !(isPySpace c) && c ≠ ',' && c ≠ ']' && c ≠ '}' && c ≠ '"'

/-- Strip a literal character sequence from the front of a list
(used to model anchored literal pieces of the regexes). -/
def stripLit : List Char → List Char → Option (List Char)
  | [], cs => some cs
  | _ :: _, [] => none
  | p :: ps, c :: cs => if c = p then stripLit ps cs else none

/-! ### `strip_chunk_prefixes` (scrape.py lines 39-41)

`re.sub(r'^\s*\d+\s*:\s*', '', rsc_body, flags=re.M)`: at every line start
(position 0 or just after a `'\n'`), greedily match whitespace, digits,
whitespace, `':'`, whitespace, and delete the match.  Scanning resumes at the
end of a match, so a trailing `\s*` that swallows newlines also swallows the
line starts inside it; the resumed position is a line start exactly when the
last deleted character was a `'\n'`. -/

/-- Match `\s*\d+\s*:\s*` at the head; returns `(consumed, rest)`. -/
def linePrefixMatch (cs : List Char) : Option (List Char × List Char) :=
  let sp1 := cs.takeWhile isPySpace
  let s1 := cs.dropWhile isPySpace
  let ds := s1.takeWhile Char.isDigit
  if ds.isEmpty then none
  else
    let s2 := (s1.dropWhile Char.isDigit)
    let sp2 := s2.takeWhile isPySpace
    match s2.dropWhile isPySpace with
    | ':' :: r =>
        some (sp1 ++ ds ++ sp2 ++ [':'] ++ r.takeWhile isPySpace, r.dropWhile isPySpace)
    | _ => none

theorem dropWhile_len_le (p : Char → Bool) (l : List Char) :
    (l.dropWhile p).length ≤ l.length := by
  induction l with
  | nil => simp
  | cons a t ih =>
    rw [List.dropWhile_cons]
    split <;> simp <;> omega

theorem linePrefixMatch_shrink (cs co r : List Char)
    (h : linePrefixMatch cs = some (co, r)) : r.length < cs.length := by
  unfold linePrefixMatch at h
  by_cases hds : (List.takeWhile Char.isDigit (cs.dropWhile isPySpace)).isEmpty
  · simp [hds] at h
  · simp only [hds, if_false, Bool.false_eq_true] at h
    split at h
    · rename_i rr hr
      simp only [Option.some.injEq, Prod.mk.injEq] at h
      have h1 : (List.dropWhile isPySpace cs).length ≤ cs.length :=
        dropWhile_len_le _ _
      have h2 : (List.dropWhile Char.isDigit (cs.dropWhile isPySpace)).length
          ≤ (cs.dropWhile isPySpace).length := dropWhile_len_le _ _
      have h3 : (List.dropWhile isPySpace
            (List.dropWhile Char.isDigit (cs.dropWhile isPySpace))).length
          ≤ (List.dropWhile Char.isDigit (cs.dropWhile isPySpace)).length :=
        dropWhile_len_le _ _
      have h4 : (List.dropWhile isPySpace rr).length ≤ rr.length :=
        dropWhile_len_le _ _
      have h5 : rr.length + 1 =
          (List.dropWhile isPySpace
            (List.dropWhile Char.isDigit (cs.dropWhile isPySpace))).length := by
        rw [hr]; simp
      have h6 : r.length ≤ rr.length := by
        rw [← h.2]; exact dropWhile_len_le _ _
      omega
    · simp at h

/-- The scanning loop of the multiline substitution.  The `Bool` says whether
the current position is a line start (`^` in `re.M`).  The fuel only makes
the recursion structural; every step consumes at least one character, so
`fuel = cs.length` never runs out. -/
def stripGoF : Nat → Bool → List Char → List Char
  | _, _, [] => []
  | 0, _, cs => cs
  | fuel + 1, false, c :: rest => c :: stripGoF fuel (c = '\n') rest
  | fuel + 1, true, c :: rest =>
    match linePrefixMatch (c :: rest) with
    | some (co, r) => stripGoF fuel (co.getLast? = some '\n') r
    | none => c :: stripGoF fuel (c = '\n') rest

theorem stripGoF_fuel_irrel :
    ∀ fuel fuel' (b : Bool) cs, cs.length ≤ fuel → cs.length ≤ fuel' →
      stripGoF fuel b cs = stripGoF fuel' b cs := by
  intro fuel
  induction fuel with
  | zero =>
    intro fuel' b cs h _
    have : cs = [] := List.eq_nil_of_length_eq_zero (Nat.le_zero.mp h)
    subst this; cases fuel' <;> simp [stripGoF]
  | succ f ih =>
    intro fuel' b cs h h'
    cases cs with
    | nil => cases fuel' <;> simp [stripGoF]
    | cons c t =>
      cases fuel' with
      | zero => simp at h'
      | succ f' =>
        cases b with
        | false =>
          simp only [stripGoF]
          simp only [List.length_cons] at h h'
          exact congrArg (c :: ·) (ih f' (c = '\n') t (by omega) (by omega))
        | true =>
          simp only [stripGoF]
          cases hmc : linePrefixMatch (c :: t) with
          | some pr =>
            obtain ⟨co, r⟩ := pr
            have hl := linePrefixMatch_shrink _ _ _ hmc
            simp only [List.length_cons] at h h' hl
            exact ih f' (co.getLast? = some '\n') r (by omega) (by omega)
          | none =>
            simp only [List.length_cons] at h h'
            exact congrArg (c :: ·) (ih f' (c = '\n') t (by omega) (by omega))

def stripGo (b : Bool) (cs : List Char) : List Char := stripGoF cs.length b cs

theorem stripGo_nil (b : Bool) : stripGo b [] = [] := rfl

theorem stripGo_false_cons (c : Char) (rest : List Char) :
    stripGo false (c :: rest) = c :: stripGo (c = '\n') rest := by
  simp only [stripGo, List.length_cons, stripGoF]

theorem stripGo_true_cons_none {c : Char} {rest : List Char}
    (h : linePrefixMatch (c :: rest) = none) :
    stripGo true (c :: rest) = c :: stripGo (c = '\n') rest := by
  simp only [stripGo, List.length_cons, stripGoF, h]

theorem stripGo_true_cons_some {c : Char} {rest co r : List Char}
    (h : linePrefixMatch (c :: rest) = some (co, r)) :
    stripGo true (c :: rest) = stripGo (co.getLast? = some '\n') r := by
  have hl := linePrefixMatch_shrink _ _ _ h
  simp only [List.length_cons] at hl
  simp only [stripGo, List.length_cons, stripGoF, h]
  exact stripGoF_fuel_irrel _ _ _ _ (by omega) (by omega)

/-- scrape.py `strip_chunk_prefixes`. -/
def strip_chunk_prefixes (body : List Char) : List Char := stripGo true body

/-! ### Generic `re.sub` engine

Each of the six substitution passes of `normalize_rsc_tokens` scans left to
right; at each position it either rewrites a (nonempty) match and resumes
after it, or moves on one character. -/

def reSubF (m : List Char → Option (List Char × List Char)) : Nat → List Char → List Char
  | _, [] => []
  | 0, cs => cs
  | fuel + 1, c :: cs =>
    match m (c :: cs) with
    | some (r, rest) => r ++ reSubF m fuel rest
    | none => c :: reSubF m fuel cs

/-- A matcher is shrinking when every match consumes at least one character. -/
def Shrinking (m : List Char → Option (List Char × List Char)) : Prop :=
  ∀ cs r rest, m cs = some (r, rest) → rest.length < cs.length

theorem reSubF_fuel_irrel {m} (hm : Shrinking m) :
    ∀ fuel fuel' cs, cs.length ≤ fuel → cs.length ≤ fuel' →
      reSubF m fuel cs = reSubF m fuel' cs := by
  intro fuel
  induction fuel with
  | zero =>
    intro fuel' cs h _
    have : cs = [] := List.eq_nil_of_length_eq_zero (Nat.le_zero.mp h)
    subst this; cases fuel' <;> rfl
  | succ f ih =>
    intro fuel' cs h h'
    cases cs with
    | nil => cases fuel' <;> rfl
    | cons c t =>
      cases fuel' with
      | zero => simp at h'
      | succ f' =>
        cases hmc : m (c :: t) with
        | some pr =>
          obtain ⟨r, rest⟩ := pr
          have hl := hm _ _ _ hmc
          simp only [List.length_cons] at h h' hl
          simp only [reSubF, hmc]
          exact congrArg (r ++ ·) (ih f' rest (by omega) (by omega))
        | none =>
          simp only [List.length_cons] at h h'
          simp only [reSubF, hmc]
          exact congrArg (c :: ·) (ih f' t (by omega) (by omega))

/-- One substitution pass (`re.sub` with replacement computed by `m`). -/
def reSub (m : List Char → Option (List Char × List Char)) (cs : List Char) : List Char :=
  reSubF m cs.length cs

theorem reSub_nil {m} : reSub m [] = [] := rfl

theorem reSub_cons_none {m c cs} (h : m (c :: cs) = none) :
    reSub m (c :: cs) = c :: reSub m cs := by
  simp only [reSub, List.length_cons, reSubF, h]

theorem reSub_cons_some {m} (hm : Shrinking m) {c cs r rest}
    (h : m (c :: cs) = some (r, rest)) :
    reSub m (c :: cs) = r ++ reSub m rest := by
  have hl := hm _ _ _ h
  simp only [List.length_cons] at hl
  simp only [reSub, List.length_cons, reSubF, h]
  rw [reSubF_fuel_irrel hm cs.length rest.length rest (by omega) (by omega)]

/-- If no match starts anywhere in `cs`, the pass is the identity. -/
theorem reSub_id_of_none {m} (cs : List Char)
    (h : ∀ i, m (cs.drop i) = none) : reSub m cs = cs := by
  induction cs with
  | nil => rfl
  | cons c t ih =>
    rw [reSub_cons_none (h 0), ih (fun i => h (i + 1))]

/-- If no match starts inside `pre`, the pass skips over it. -/
theorem reSub_append_of_none {m} (pre rest : List Char)
    (h : ∀ i, i < pre.length → m ((pre ++ rest).drop i) = none) :
    reSub m (pre ++ rest) = pre ++ reSub m rest := by
  induction pre with
  | nil => rfl
  | cons c t ih =>
    have h0 := h 0 (by simp)
    simp only [List.cons_append, List.drop_zero] at h0
    have ht : ∀ i, i < t.length → m ((t ++ rest).drop i) = none := by
      intro i hi
      have := h (i + 1) (by simp; omega)
      simpa using this
    rw [List.cons_append, reSub_cons_none h0, ih ht, List.cons_append]

/-! ### `normalize_rsc_tokens` (scrape.py lines 27-37)

Six `re.sub` passes, in source order.  Every pattern is deterministic: each
character class excludes the character that must follow it, so the greedy
maximal run is the only candidate and no backtracking can occur. -/

def notQuote (c : Char) : Bool := c != '"'

/-- Pattern 1: `"\$n(\d+)"` → `\1`. -/
def mQN : List Char → Option (List Char × List Char)
  | '"' :: '$' :: 'n' :: rest =>
    if (rest.takeWhile Char.isDigit).isEmpty then none
    else
      match rest.dropWhile Char.isDigit with
      | '"' :: tail => some (rest.takeWhile Char.isDigit, tail)
      | _ => none
  | _ => none

/-- Pattern 2: `\$n(\d+)` → `\1`. -/
def mN : List Char → Option (List Char × List Char)
  | '$' :: 'n' :: rest =>
    if (rest.takeWhile Char.isDigit).isEmpty then none
    else some (rest.takeWhile Char.isDigit, rest.dropWhile Char.isDigit)
  | _ => none

/-- Pattern 3: `"\$D([^"]+)"` → `"\1"`. -/
def mQD : List Char → Option (List Char × List Char)
  | '"' :: '$' :: 'D' :: rest =>
    if (rest.takeWhile notQuote).isEmpty then none
    else
      match rest.dropWhile notQuote with
      | '"' :: tail => some ('"' :: rest.takeWhile notQuote ++ ['"'], tail)
      | _ => none
  | _ => none

/-- Pattern 4: `\$D([^\s,\]\}"]+)` → `"\1"`. -/
def mD : List Char → Option (List Char × List Char)
  | '$' :: 'D' :: rest =>
    if (rest.takeWhile isDTokChar).isEmpty then none
    else some ('"' :: rest.takeWhile isDTokChar ++ ['"'], rest.dropWhile isDTokChar)
  | _ => none

def nullLit : List Char := ['n', 'u', 'l', 'l']

/-- Pattern 5: `"\$[@A-Za-z0-9_]+"` → `null`. -/
def mQRef : List Char → Option (List Char × List Char)
  | '"' :: '$' :: rest =>
    if (rest.takeWhile isRefChar).isEmpty then none
    else
      match rest.dropWhile isRefChar with
      | '"' :: tail => some (nullLit, tail)
      | _ => none
  | _ => none

/-- Pattern 6: `\$[@A-Za-z0-9_]+` → `null`. -/
def mRef : List Char → Option (List Char × List Char)
  | '$' :: rest =>
    if (rest.takeWhile isRefChar).isEmpty then none
    else some (nullLit, rest.dropWhile isRefChar)
  | _ => none

/-- scrape.py `normalize_rsc_tokens`: the six passes in source order. -/
def normalize_rsc_tokens (s : List Char) : List Char :=
  reSub mRef (reSub mQRef (reSub mD (reSub mQD (reSub mN (reSub mQN s)))))

theorem mQN_shrink : Shrinking mQN := by
  intro cs r rest h
  unfold mQN at h
  split at h
  · rename_i rest0
    split at h
    · simp at h
    · split at h
      · rename_i tail htail
        simp only [Option.some.injEq, Prod.mk.injEq] at h
        obtain ⟨hval, hrest⟩ := h
        subst hrest
        have h1 : tail.length + 1 = (rest0.dropWhile Char.isDigit).length := by
          rw [htail]; simp
        have h2 := dropWhile_len_le Char.isDigit rest0
        simp only [List.length_cons]
        omega
      · simp at h
  · simp at h

theorem mN_shrink : Shrinking mN := by
  intro cs r rest h
  unfold mN at h
  split at h
  · rename_i rest0
    split at h
    · simp at h
    · simp only [Option.some.injEq, Prod.mk.injEq] at h
      obtain ⟨hval, hrest⟩ := h
      subst hrest
      have h2 := dropWhile_len_le Char.isDigit rest0
      simp only [List.length_cons]
      omega
  · simp at h

theorem mQD_shrink : Shrinking mQD := by
  intro cs r rest h
  unfold mQD at h
  split at h
  · rename_i rest0
    split at h
    · simp at h
    · split at h
      · rename_i tail htail
        simp only [Option.some.injEq, Prod.mk.injEq] at h
        obtain ⟨hval, hrest⟩ := h
        subst hrest
        have h1 : tail.length + 1 = (rest0.dropWhile notQuote).length := by
          rw [htail]; simp
        have h2 := dropWhile_len_le notQuote rest0
        simp only [List.length_cons]
        omega
      · simp at h
  · simp at h

theorem mD_shrink : Shrinking mD := by
  intro cs r rest h
  unfold mD at h
  split at h
  · rename_i rest0
    split at h
    · simp at h
    · simp only [Option.some.injEq, Prod.mk.injEq] at h
      obtain ⟨hval, hrest⟩ := h
      subst hrest
      have h2 := dropWhile_len_le isDTokChar rest0
      simp only [List.length_cons]
      omega
  · simp at h

theorem mQRef_shrink : Shrinking mQRef := by
  intro cs r rest h
  unfold mQRef at h
  split at h
  · rename_i rest0
    split at h
    · simp at h
    · split at h
      · rename_i tail htail
        simp only [Option.some.injEq, Prod.mk.injEq] at h
        obtain ⟨hval, hrest⟩ := h
        subst hrest
        have h1 : tail.length + 1 = (rest0.dropWhile isRefChar).length := by
          rw [htail]; simp
        have h2 := dropWhile_len_le isRefChar rest0
        simp only [List.length_cons]
        omega
      · simp at h
  · simp at h

theorem mRef_shrink : Shrinking mRef := by
  intro cs r rest h
  unfold mRef at h
  split at h
  · rename_i rest0
    split at h
    · simp at h
    · simp only [Option.some.injEq, Prod.mk.injEq] at h
      obtain ⟨hval, hrest⟩ := h
      subst hrest
      have h2 := dropWhile_len_le isRefChar rest0
      simp only [List.length_cons]
      omega
  · simp at h

theorem mQN_shape {cs x} (h : mQN cs = some x) : ∃ t, cs = '"' :: '$' :: t := by
  unfold mQN at h
  split at h
  · rename_i rest0; exact ⟨'n' :: rest0, rfl⟩
  · simp at h

theorem mN_shape {cs x} (h : mN cs = some x) : ∃ t, cs = '$' :: t := by
  unfold mN at h
  split at h
  · rename_i rest0; exact ⟨'n' :: rest0, rfl⟩
  · simp at h

theorem mQD_shape {cs x} (h : mQD cs = some x) : ∃ t, cs = '"' :: '$' :: t := by
  unfold mQD at h
  split at h
  · rename_i rest0; exact ⟨'D' :: rest0, rfl⟩
  · simp at h

theorem mD_shape {cs x} (h : mD cs = some x) : ∃ t, cs = '$' :: t := by
  unfold mD at h
  split at h
  · rename_i rest0; exact ⟨'D' :: rest0, rfl⟩
  · simp at h

theorem mQRef_shape {cs x} (h : mQRef cs = some x) : ∃ t, cs = '"' :: '$' :: t := by
  unfold mQRef at h
  split at h
  · rename_i rest0; exact ⟨rest0, rfl⟩
  · simp at h

theorem mRef_shape {cs x} (h : mRef cs = some x) : ∃ t, cs = '$' :: t := by
  unfold mRef at h
  split at h
  · rename_i rest0; exact ⟨rest0, rfl⟩
  · simp at h

/-- A pass whose matches start with `'$'` never fires on a `'$'`-free text. -/
theorem reSub_id_dollar {m} (hshape : ∀ cs x, m cs = some x → ∃ t, cs = '$' :: t)
    {l : List Char} (hl : '$' ∉ l) : reSub m l = l := by
  apply reSub_id_of_none
  intro i
  cases hmc : m (l.drop i) with
  | none => rfl
  | some x =>
    obtain ⟨t, ht⟩ := hshape _ _ hmc
    exact absurd (List.drop_subset i l (ht ▸ List.mem_cons_self '$' t)) hl

/-- A pass whose matches start with `'"','$'` never fires on a `'$'`-free text. -/
theorem reSub_id_quote {m} (hshape : ∀ cs x, m cs = some x → ∃ t, cs = '"' :: '$' :: t)
    {l : List Char} (hl : '$' ∉ l) : reSub m l = l := by
  apply reSub_id_of_none
  intro i
  cases hmc : m (l.drop i) with
  | none => rfl
  | some x =>
    obtain ⟨t, ht⟩ := hshape _ _ hmc
    have : '$' ∈ l.drop i := by rw [ht]; simp
    exact absurd (List.drop_subset i l this) hl

/-- A `'$'`-free text is left alone by the whole normalizer. -/
theorem normalize_id_of_no_dollar {l : List Char} (hl : '$' ∉ l) :
    normalize_rsc_tokens l = l := by
  unfold normalize_rsc_tokens
  rw [reSub_id_quote (fun _ _ h => mQN_shape h) hl, reSub_id_dollar (fun _ _ h => mN_shape h) hl,
    reSub_id_quote (fun _ _ h => mQD_shape h) hl, reSub_id_dollar (fun _ _ h => mD_shape h) hl,
    reSub_id_quote (fun _ _ h => mQRef_shape h) hl, reSub_id_dollar (fun _ _ h => mRef_shape h) hl]

/-- Skipping over a `'$'`-free prefix, for passes anchored at `'$'`. -/
theorem reSub_append_dollar {m} (hshape : ∀ cs x, m cs = some x → ∃ t, cs = '$' :: t)
    {pre : List Char} (rest : List Char) (hpre : '$' ∉ pre) :
    reSub m (pre ++ rest) = pre ++ reSub m rest := by
  apply reSub_append_of_none
  intro i hi
  cases hmc : m ((pre ++ rest).drop i) with
  | none => rfl
  | some x =>
    obtain ⟨t, ht⟩ := hshape _ _ hmc
    rw [List.drop_append_of_le_length (le_of_lt hi)] at ht
    rcases hd : pre.drop i with _ | ⟨a, u⟩
    · have : pre.length - i = 0 := by rw [← List.length_drop, hd]; rfl
      omega
    · rw [hd] at ht
      simp only [List.cons_append, List.cons.injEq] at ht
      have : '$' ∈ pre.drop i := by rw [hd, ht.1]; exact List.mem_cons_self _ _
      exact absurd (List.drop_subset i pre this) hpre

/-- Skipping over a `'$'`-free prefix, for passes anchored at `'"','$'`;
needs the continuation not to begin with `'$'` (else a final `'"'` of the
prefix could fuse with it). -/
theorem reSub_append_quote {m} (hshape : ∀ cs x, m cs = some x → ∃ t, cs = '"' :: '$' :: t)
    {pre rest : List Char} (hpre : '$' ∉ pre) (hrest : ∀ t, rest ≠ '$' :: t) :
    reSub m (pre ++ rest) = pre ++ reSub m rest := by
  apply reSub_append_of_none
  intro i hi
  cases hmc : m ((pre ++ rest).drop i) with
  | none => rfl
  | some x =>
    obtain ⟨t, ht⟩ := hshape _ _ hmc
    rw [List.drop_append_of_le_length (le_of_lt hi)] at ht
    rcases hd : pre.drop i with _ | ⟨a, u⟩
    · have : pre.length - i = 0 := by rw [← List.length_drop, hd]; rfl
      omega
    · rw [hd] at ht
      simp only [List.cons_append, List.cons.injEq] at ht
      rcases u with _ | ⟨b, v⟩
      · exact absurd ht.2 (hrest t)
      · simp only [List.cons_append, List.cons.injEq] at ht
        have : '$' ∈ pre.drop i := by
          rw [hd, ht.2.1]
          exact List.mem_cons_of_mem _ (List.mem_cons_self _ _)
        exact absurd (List.drop_subset i pre this) hpre

/-! ### The string-literal-aware bracket scanners (scrape.py lines 43-118)

`skipStr` is the inner `while` loop shared by both scanners: from the
character after an opening `'"'`, a backslash skips the following character
uninterpreted, an unescaped `'"'` closes the string, and running off the end
leaves the outer loop to fail.  `scanBalanced` is the outer loop: it tracks
nesting depth for one bracket pair, decrements-then-tests on the closing
bracket exactly as the Python does (`depth` is an `Int` there), and returns
the scanned span inclusive of the matching close, or `none` when the input
ends first. -/

/-! Inner string-skip loop.  `skipStr` returns
`(consumed ++ [closing quote], rest)`, or `none` when the string never closes
before the end of input; a backslash skips the next character uninterpreted
(`skipStrEsc`). -/
mutual

def skipStr : List Char → Option (List Char × List Char)
  | [] => none
  | c :: rest =>
    if c = '"' then some (['"'], rest)
    else if c = '\\' then (skipStrEsc rest).map (fun pr => (c :: pr.1, pr.2))
    else (skipStr rest).map (fun pr => (c :: pr.1, pr.2))

def skipStrEsc : List Char → Option (List Char × List Char)
  | [] => none
  | d :: rest => (skipStr rest).map (fun pr => (d :: pr.1, pr.2))

end

theorem skipStr_shrink_aux : ∀ (n : Nat),
    (∀ cs : List Char, cs.length ≤ n →
      ∀ b r, skipStr cs = some (b, r) → r.length < cs.length) ∧
    (∀ cs : List Char, cs.length ≤ n →
      ∀ b r, skipStrEsc cs = some (b, r) → r.length < cs.length) := by
  intro n
  induction n with
  | zero =>
    constructor
    · intro cs hl b r h
      have : cs = [] := List.eq_nil_of_length_eq_zero (Nat.le_zero.mp hl)
      subst this
      exact Option.noConfusion h
    · intro cs hl b r h
      have : cs = [] := List.eq_nil_of_length_eq_zero (Nat.le_zero.mp hl)
      subst this
      exact Option.noConfusion h
  | succ n ih =>
    constructor
    · intro cs hl b r h
      cases cs with
      | nil => exact Option.noConfusion h
      | cons c rest =>
        rw [skipStr.eq_def] at h
        dsimp only at h
        split at h
        · simp only [Option.some.injEq, Prod.mk.injEq] at h
          rw [← h.2]; simp
        · split at h
          · simp only [Option.map_eq_some'] at h
            obtain ⟨⟨b0, r0⟩, h0, heq⟩ := h
            have hlen : rest.length ≤ n := by
              simp only [List.length_cons] at hl; omega
            have hlt := ih.2 rest hlen b0 r0 h0
            simp only [Prod.mk.injEq] at heq
            rw [← heq.2]
            simp only [List.length_cons]
            omega
          · simp only [Option.map_eq_some'] at h
            obtain ⟨⟨b0, r0⟩, h0, heq⟩ := h
            have hlen : rest.length ≤ n := by
              simp only [List.length_cons] at hl; omega
            have hlt := ih.1 rest hlen b0 r0 h0
            simp only [Prod.mk.injEq] at heq
            rw [← heq.2]
            simp only [List.length_cons]
            omega
    · intro cs hl b r h
      cases cs with
      | nil => exact Option.noConfusion h
      | cons d rest =>
        rw [skipStrEsc.eq_def] at h
        dsimp only at h
        simp only [Option.map_eq_some'] at h
        obtain ⟨⟨b0, r0⟩, h0, heq⟩ := h
        have hlen : rest.length ≤ n := by
          simp only [List.length_cons] at hl; omega
        have hlt := ih.1 rest hlen b0 r0 h0
        simp only [Prod.mk.injEq] at heq
        rw [← heq.2]
        simp only [List.length_cons]
        omega

theorem skipStr_shrink (cs b r : List Char) (h : skipStr cs = some (b, r)) :
    r.length < cs.length :=
  (skipStr_shrink_aux cs.length).1 cs (Nat.le_refl _) b r h

/-- Outer balanced-span loop, parametrized by the bracket pair (the source
has one copy for `[`/`]` and one for `{`/`}` with identical logic).  `depth`
is decremented and then compared with zero on a closing bracket, exactly as
in the source; the span (from the scan start through the matching closer,
inclusive) is rebuilt on the way out.  The fuel only makes the recursion
structural; every step consumes at least one character. -/
def scanBalF (op cl : Char) : Nat → List Char → Int → Option (List Char)
  | _, [], _ => none
  | 0, _, _ => none
  | fuel + 1, c :: rest, depth =>
    if c = op then (scanBalF op cl fuel rest (depth + 1)).map (c :: ·)
    else if c = cl then
      if depth - 1 = 0 then some [c]
      else (scanBalF op cl fuel rest (depth - 1)).map (c :: ·)
    else if c = '"' then
      match skipStr rest with
      | none => none
      | some (b, rest') => (scanBalF op cl fuel rest' depth).map (fun sp => c :: (b ++ sp))
    else (scanBalF op cl fuel rest depth).map (c :: ·)

theorem scanBalF_fuel_irrel (op cl : Char) :
    ∀ fuel fuel' cs (depth : Int), cs.length ≤ fuel → cs.length ≤ fuel' →
      scanBalF op cl fuel cs depth = scanBalF op cl fuel' cs depth := by
  intro fuel
  induction fuel with
  | zero =>
    intro fuel' cs depth h _
    have : cs = [] := List.eq_nil_of_length_eq_zero (Nat.le_zero.mp h)
    subst this; cases fuel' <;> simp [scanBalF]
  | succ f ih =>
    intro fuel' cs depth h h'
    cases cs with
    | nil => cases fuel' <;> simp [scanBalF]
    | cons c t =>
      cases fuel' with
      | zero => simp at h'
      | succ f' =>
        simp only [List.length_cons] at h h'
        simp only [scanBalF]
        by_cases hop : c = op
        · simp only [hop, if_true, ih f' t (depth + 1) (by omega) (by omega)]
        · simp only [hop, if_false]
          by_cases hcl : c = cl
          · simp only [hcl, if_true, ih f' t (depth - 1) (by omega) (by omega)]
          · simp only [hcl, if_false]
            by_cases hq : c = '"'
            · simp only [hq, if_true]
              cases hsk : skipStr t with
              | none => rfl
              | some pr =>
                obtain ⟨b, rest'⟩ := pr
                have hl := skipStr_shrink _ _ _ hsk
                dsimp only
                rw [ih f' rest' depth (by omega) (by omega)]
            · simp only [hq, if_false, ih f' t depth (by omega) (by omega)]

def scanBalanced (op cl : Char) (cs : List Char) (depth : Int) : Option (List Char) :=
  scanBalF op cl cs.length cs depth

theorem scanBalanced_nil (op cl : Char) (depth : Int) :
    scanBalanced op cl [] depth = none := rfl

theorem scanBalanced_cons (op cl : Char) (c : Char) (rest : List Char) (depth : Int) :
    scanBalanced op cl (c :: rest) depth =
      (if c = op then (scanBalanced op cl rest (depth + 1)).map (c :: ·)
       else if c = cl then
         if depth - 1 = 0 then some [c]
         else (scanBalanced op cl rest (depth - 1)).map (c :: ·)
       else if c = '"' then
         match skipStr rest with
         | none => none
         | some (b, rest') => (scanBalanced op cl rest' depth).map (fun sp => c :: (b ++ sp))
       else (scanBalanced op cl rest depth).map (c :: ·)) := by
  simp only [scanBalanced, List.length_cons, scanBalF]
  by_cases hop : c = op
  · simp [hop]
  · simp only [hop, if_false]
    by_cases hcl : c = cl
    · simp [hcl]
    · simp only [hcl, if_false]
      by_cases hq : c = '"'
      · simp only [hq, if_true]
        cases hsk : skipStr rest with
        | none => rfl
        | some pr =>
          obtain ⟨b, rest'⟩ := pr
          have hl := skipStr_shrink _ _ _ hsk
          dsimp only [scanBalanced]
          rw [scanBalF_fuel_irrel op cl rest.length rest'.length rest' depth
            (by omega) (by omega)]
      · simp [hq]

/-- Match `"key"\s*:\s*\[` at the head of `cs`; on success return the suffix
of `cs` beginning at the `'['` (the Python `m.end() - 1`). -/
def keyMatchAt (key : List Char) (cs : List Char) : Option (List Char) :=
  match stripLit ('"' :: key ++ ['"']) cs with
  | none => none
  | some r =>
    match r.dropWhile isPySpace with
    | ':' :: r2 =>
      match r2.dropWhile isPySpace with
      | '[' :: r3 => some ('[' :: r3)
      | _ => none
    | _ => none

/-- `re.search` for the key anchor: first position whose match succeeds. -/
def searchKey (key : List Char) : List Char → Option (List Char)
  | [] => none
  | c :: rest =>
    match keyMatchAt key (c :: rest) with
    | some suf => some suf
    | none => searchKey key rest

/-- `str.find` splitting: first occurrence of `pat`, returning the characters
before it (reversed, nearest first) and the suffix from the occurrence. -/
def findSplitGo (pat : List Char) (revPre : List Char) : List Char → Option (List Char × List Char)
  | [] => if (stripLit pat ([] : List Char)).isSome then some (revPre, []) else none
  | c :: rest =>
    match stripLit pat (c :: rest) with
    | some _ => some (revPre, c :: rest)
    | none => findSplitGo pat (c :: revPre) rest

/-- The backward walk of `extract_first_object_with_id` (lines 89-91): from
the anchor position, step left to the nearest `'{'`; if none exists the walk
stops at position 0 whatever character is there. -/
def walkBackAux : List Char → List Char → List Char
  | [], suf => suf
  | c :: revRest, suf => if c = '{' then c :: suf else walkBackAux revRest (c :: suf)

/-! ### A model of `json.loads`

Values are mappings, sequences, strings, booleans, null, and numbers; a
number literal `m.f e` is kept exactly as mantissa × 10^exp.  Python-level
caveats that cannot arise on the inputs this development evaluates: surrogate
`\u` pairs are not recombined, and the `NaN`/`Infinity` extensions are not
recognized. -/

inductive Json where
  | null
  | bool (b : Bool)
  | num (mant : Int) (exp10 : Int)
  | str (s : List Char)
  | arr (elems : List Json)
  | obj (fields : List (List Char × Json))

/-- JSON's inter-token whitespace (the strict set used by `json.loads`). -/
def isJsonWs (c : Char) : Bool := c = ' ' || c = '\t' || c = '\n' || c = '\r'

def skipJWs (cs : List Char) : List Char := cs.dropWhile isJsonWs

def hexVal (c : Char) : Option Nat :=
  let n := c.toNat
  if 48 ≤ n && n ≤ 57 then some (n - 48)
  else if 97 ≤ n && n ≤ 102 then some (n - 87)
  else if 65 ≤ n && n ≤ 70 then some (n - 55)
  else none

def escChar (e : Char) : Option Char :=
  if e = '"' then some '"'
  else if e = '\\' then some '\\'
  else if e = '/' then some '/'
  else if e = 'b' then some '\x08'
  else if e = 'f' then some '\x0c'
  else if e = 'n' then some '\n'
  else if e = 'r' then some '\r'
  else if e = 't' then some '\t'
  else none

/-- JSON string body, after the opening quote; returns `(content, rest)`. -/
def parseJStr : List Char → Option (List Char × List Char)
  | [] => none
  | c :: rest =>
    if c = '"' then some ([], rest)
    else if c = '\\' then
      match rest with
      | 'u' :: h1 :: h2 :: h3 :: h4 :: rest1 =>
        match hexVal h1, hexVal h2, hexVal h3, hexVal h4 with
        | some a, some b, some c2, some d =>
          (parseJStr rest1).map (fun pr => (Char.ofNat (((a * 16 + b) * 16 + c2) * 16 + d) :: pr.1, pr.2))
        | _, _, _, _ => none
      | e :: rest1 =>
        match escChar e with
        | some ec => (parseJStr rest1).map (fun pr => (ec :: pr.1, pr.2))
        | none => none
      | [] => none
    else if c.toNat < 0x20 then none
    else (parseJStr rest).map (fun pr => (c :: pr.1, pr.2))

/-- Integer part per the JSON grammar: `0` or a nonzero digit then digits. -/
def parseIntDigits : List Char → Option (List Char × List Char)
  | [] => none
  | c :: rest =>
    if c = '0' then some (['0'], rest)
    else if c.isDigit then some (c :: rest.takeWhile Char.isDigit, rest.dropWhile Char.isDigit)
    else none

def digitsToNat (ds : List Char) : Nat :=
  ds.foldl (fun acc d => 10 * acc + (d.toNat - 48)) 0

/-- Exponent part after `e`/`E`: optional sign then digits; `none` when the
digits are missing (the `e` is then not part of the number). -/
def expPart : List Char → Option (Int × List Char)
  | '+' :: r =>
    if (r.takeWhile Char.isDigit).isEmpty then none
    else some ((digitsToNat (r.takeWhile Char.isDigit) : Int), r.dropWhile Char.isDigit)
  | '-' :: r =>
    if (r.takeWhile Char.isDigit).isEmpty then none
    else some (-(digitsToNat (r.takeWhile Char.isDigit) : Int), r.dropWhile Char.isDigit)
  | r =>
    if (r.takeWhile Char.isDigit).isEmpty then none
    else some ((digitsToNat (r.takeWhile Char.isDigit) : Int), r.dropWhile Char.isDigit)

def parseNum (cs : List Char) : Option (Json × List Char) :=
  match (match cs with | '-' :: r => (true, r) | _ => (false, cs)) with
  | (neg, cs1) =>
    match parseIntDigits cs1 with
    | none => none
    | some (ids, r1) =>
      match (match r1 with
        | '.' :: rf =>
          if (rf.takeWhile Char.isDigit).isEmpty then (([] : List Char), r1)
          else (rf.takeWhile Char.isDigit, rf.dropWhile Char.isDigit)
        | _ => ([], r1)) with
      | (fds, r2) =>
        match (match r2 with
          | 'e' :: re =>
            (match expPart re with | some (v, rr) => (v, rr) | none => ((0 : Int), r2))
          | 'E' :: re =>
            (match expPart re with | some (v, rr) => (v, rr) | none => ((0 : Int), r2))
          | _ => ((0 : Int), r2)) with
        | (ex, r3) =>
          let mantNat := digitsToNat (ids ++ fds)
          some (Json.num (if neg then -(mantNat : Int) else (mantNat : Int))
                  (ex - fds.length), r3)

/-- Python-dict insertion: an existing key keeps its position and is
overwritten, a new key is appended. -/
def insertKV (kvs : List (List Char × Json)) (k : List Char) (v : Json) :
    List (List Char × Json) :=
  if kvs.any (fun p => p.1 == k) then kvs.map (fun p => if p.1 == k then (p.1, v) else p)
  else kvs ++ [(k, v)]

def jAssoc (k : List Char) : List (List Char × Json) → Option Json
  | [] => none
  | (k', v) :: rest => if k' == k then some v else jAssoc k rest

mutual

/-- Recursive-descent JSON value (expects no leading whitespace). -/
def parseVal : Nat → List Char → Option (Json × List Char)
  | 0, _ => none
  | fuel + 1, cs =>
    match cs with
    | 'n' :: 'u' :: 'l' :: 'l' :: r => some (.null, r)
    | 't' :: 'r' :: 'u' :: 'e' :: r => some (.bool true, r)
    | 'f' :: 'a' :: 'l' :: 's' :: 'e' :: r => some (.bool false, r)
    | '"' :: r => (parseJStr r).map (fun pr => (.str pr.1, pr.2))
    | '[' :: r =>
      (match skipJWs r with
       | ']' :: r2 => some (.arr [], r2)
       | r2 => parseArrLoop fuel r2 [])
    | '{' :: r =>
      (match skipJWs r with
       | '}' :: r2 => some (.obj [], r2)
       | r2 => parseObjLoop fuel r2 [])
    | _ => parseNum cs

def parseArrLoop : Nat → List Char → List Json → Option (Json × List Char)
  | 0, _, _ => none
  | fuel + 1, cs, acc =>
    match parseVal fuel cs with
    | none => none
    | some (v, r) =>
      match skipJWs r with
      | ',' :: r2 => parseArrLoop fuel (skipJWs r2) (acc ++ [v])
      | ']' :: r2 => some (.arr (acc ++ [v]), r2)
      | _ => none

def parseObjLoop : Nat → List Char → List (List Char × Json) → Option (Json × List Char)
  | 0, _, _ => none
  | fuel + 1, cs, acc =>
    match cs with
    | '"' :: r =>
      (match parseJStr r with
       | none => none
       | some (k, r1) =>
         match skipJWs r1 with
         | ':' :: r2 =>
           (match parseVal fuel (skipJWs r2) with
            | none => none
            | some (v, r3) =>
              match skipJWs r3 with
              | ',' :: r4 => parseObjLoop fuel (skipJWs r4) (insertKV acc k v)
              | '}' :: r4 => some (.obj (insertKV acc k v), r4)
              | _ => none)
         | _ => none)
    | _ => none

end

/-- Model of `json.loads`: parse one value, allow surrounding whitespace,
reject trailing data.  The fuel is an upper bound on recursion depth, amply
larger than the input. -/
def json_loads (cs : List Char) : Option Json :=
  match parseVal (2 * cs.length + 8) (skipJWs cs) with
  | none => none
  | some (v, rest) => if (skipJWs rest).isEmpty then some v else none

/-! ### The two extractors -/

/-- The span located by `extract_json_array_from_rsc` before normalization
and parsing: strip line prefixes, search the key anchor, scan the balanced
array (this is `joined[start:i+1]` in the source). -/
def find_array_span (body key : List Char) : Option (List Char) :=
  match searchKey key (strip_chunk_prefixes body) with
  | none => none
  | some suf => scanBalanced '[' ']' suf 0

/-- scrape.py `extract_json_array_from_rsc` (lines 43-77).  The final
wildcard also covers a successful parse of a non-sequence, which cannot
happen because the span begins with `'['`. -/
def extract_json_array_from_rsc (body key : List Char) : List Json :=
  match find_array_span body key with
  | none => []
  | some span =>
    match json_loads (normalize_rsc_tokens span) with
    | some (Json.arr l) => l
    | _ => []

/-- The literal `'"id":"<target>"'` anchor of the by-value extractor. -/
def idAnchor (target : List Char) : List Char :=
  '"' :: 'i' :: 'd' :: '"' :: ':' :: '"' :: (target ++ ['"'])

/-- scrape.py `extract_first_object_with_id` (lines 79-118). -/
def extract_first_object_with_id (body target : List Char) : Option Json :=
  match findSplitGo (idAnchor target) [] (strip_chunk_prefixes body) with
  | none => none
  | some (revPre, suf) =>
    match scanBalanced '{' '}' (walkBackAux revPre suf) 0 with
    | none => none
    | some span => json_loads (normalize_rsc_tokens span)

/-! ### Python value semantics used by `main`

`main` tests decoded values for truthiness (`if init_rows:`, `while last_id:`,
`obj or ...`) and compares cursors with `==`.  Truthiness is falsity of
none/False/0/empty; `==` is structural except that numbers compare by value
(duplicate-free mappings, as produced by the parser, compare by key lookup;
the `True == 1` cross-type case is not modelled — cursors are strings or
numbers here). -/

def pyTruthy : Json → Bool
  | .null => false
  | .bool b => b
  | .num m _ => m != 0
  | .str s => !s.isEmpty
  | .arr l => !l.isEmpty
  | .obj l => !l.isEmpty

def pyTruthyOpt : Option Json → Bool
  | none => false
  | some j => pyTruthy j

mutual

def pyJsonEq : Json → Json → Bool
  | .null, .null => true
  | .bool a, .bool b => a == b
  | .num m1 e1, .num m2 e2 =>
    if e2 ≤ e1 then m1 * 10 ^ (e1 - e2).toNat == m2 else m1 == m2 * 10 ^ (e2 - e1).toNat
  | .str a, .str b => a == b
  | .arr a, .arr b => pyListEq a b
  | .obj a, .obj b => a.length == b.length && pyObjLe a b
  | _, _ => false

def pyListEq : List Json → List Json → Bool
  | [], [] => true
  | x :: xs, y :: ys => pyJsonEq x y && pyListEq xs ys
  | _, _ => false

def pyObjLe : List (List Char × Json) → List (List Char × Json) → Bool
  | [], _ => true
  | (k, v) :: rest, b =>
    (match jAssoc k b with
     | some w => pyJsonEq v w
     | none => false) && pyObjLe rest b

end

def pyEqOpt : Option Json → Option Json → Bool
  | none, none => true
  | some a, some b => pyJsonEq a b
  | _, _ => false

/-- `d[k]` lookup on a decoded value; anything but a mapping with the key
present makes the Python raise (`KeyError`/`TypeError`). -/
def jLookup (j : Json) (k : List Char) : Option Json :=
  match j with
  | .obj kvs => jAssoc k kvs
  | _ => none

/-- Python `x or y` on an optional decoded value (`None` and falsy values
fall through to the default). -/
def pyOr (o : Option Json) (d : Json) : Json :=
  match o with
  | some v => if pyTruthy v then v else d
  | none => d

/-! ### The HTTP boundary and `main`'s crawl (scrape.py lines 120-285)

A transport response is its status code and body text; the transport itself
(headers, payloads, retries) stays outside the model.  `main` is parametrized
by the two first-page responses (the two payload shapes tried by
`get_initial_via_post`), the anchor hrefs of the fallback markup, a response
oracle for the per-identifier detail fetches, and a response oracle for the
successive `post_load_more` calls. -/

structure Resp where
  status : Nat
  body : List Char

def PAGE_LIMIT : Nat := 24

def datasetsKey : List Char := ['d', 'a', 't', 'a', 's', 'e', 't', 's']

/-- scrape.py `get_initial_via_post` (lines 131-151): try the two payload
shapes in order; skip a ≥400 response; return the first nonempty decode. -/
def get_initial_via_post (r1 r2 : Resp) : List Json :=
  let rows1 := if 400 ≤ r1.status then [] else extract_json_array_from_rsc r1.body datasetsKey
  if !rows1.isEmpty then rows1
  else
    let rows2 := if 400 ≤ r2.status then [] else extract_json_array_from_rsc r2.body datasetsKey
    if !rows2.isEmpty then rows2 else []

/-- scrape.py `get_detail_for_id` (lines 179-195). -/
def get_detail_for_id (r : Resp) (dsId : List Char) : Option Json :=
  if 400 ≤ r.status then none else extract_first_object_with_id r.body dsId

/-- Outcome of one `post_load_more` call: `raise_for_status`, or the
`rows[-1]["id"]` lookup raising, or rows plus the computed next cursor. -/
inductive LoadRes where
  | httpError
  | keyError
  | ok (rows : List Json) (nextLast : Option Json)

/-- scrape.py `post_load_more` (lines 197-209). -/
def post_load_more (r : Resp) : LoadRes :=
  if 400 ≤ r.status then .httpError
  else
    let rows := extract_json_array_from_rsc r.body datasetsKey
    if rows.isEmpty then .ok rows none
    else
      match rows.getLast? with
      | none => .keyError
      | some last =>
        match jLookup last (['i', 'd']) with
        | some v => .ok rows (some v)
        | none => .keyError

/-- Outcome of the pagination loop (`main` lines 264-273): normal fall-through
with the accumulated rows and the number of `post_load_more` calls made, or a
propagating exception, or fuel exhaustion (never hit with enough fuel). -/
inductive LoopRes where
  | done (rows : List Json) (calls : Nat)
  | httpErr
  | keyErr
  | fuelOut

/-- The `while last_id:` loop of `main`: fetch, stop on an empty page or a
non-advancing cursor (before extending the rows), else accumulate and
advance.  `k` counts the calls already made. -/
def crawlLoop (pages : Nat → Resp) : Nat → Nat → Option Json → List Json → LoopRes
  | fuel, k, lastId, acc =>
    if !pyTruthyOpt lastId then .done acc k
    else
      match fuel with
      | 0 => .fuelOut
      | fuel + 1 =>
        match post_load_more (pages k) with
        | .httpError => .httpErr
        | .keyError => .keyErr
        | .ok rows nextLast =>
          if rows.isEmpty || pyEqOpt nextLast lastId then .done acc (k + 1)
          else crawlLoop pages fuel (k + 1) nextLast (acc ++ rows)

/-- The href filter of `get_initial_ids_from_html`:
`re.match(r"^/datasets/([a-z0-9]+)$", href)`.  Python's `$` also matches just
before one trailing newline. -/
def matchDatasetHref (href : List Char) : Option (List Char) :=
  match stripLit ['/', 'd', 'a', 't', 'a', 's', 'e', 't', 's', '/'] href with
  | none => none
  | some r =>
    let core := if r.getLast? == some '\n' then r.dropLast else r
    if !core.isEmpty && core.all (fun c => ('a' ≤ c && c ≤ 'z') || ('0' ≤ c && c ≤ '9'))
    then some core else none

/-- The `seen`/`ordered` de-duplication loop (lines 171-176). -/
def dedupGo (seen : List (List Char)) : List (List Char) → List (List Char)
  | [] => []
  | i :: rest => if i ∈ seen then dedupGo seen rest else i :: dedupGo (i :: seen) rest

/-- scrape.py `get_initial_ids_from_html` (lines 153-177), with the document
abstracted to the list of its anchor `href` attributes in document order. -/
def get_initial_ids_from_html (hrefs : List (List Char)) : List (List Char) :=
  (dedupGo [] (hrefs.filterMap matchDatasetHref)).take PAGE_LIMIT

/-- Rows and cursor with which `main` enters the pagination loop: branch A
(nonempty first page via POST; `init_rows[-1]["id"]` may raise, `none` here)
or branch B (HTML fallback with per-identifier detail fetches). -/
def mainInitState (r1 r2 : Resp) (hrefs : List (List Char))
    (detailResp : List Char → Resp) : Option (List Json × Option Json) :=
  let initRows := get_initial_via_post r1 r2
  if !initRows.isEmpty then
    match initRows.getLast? with
    | none => none
    | some last =>
      match jLookup last (['i', 'd']) with
      | none => none
      | some lid => some (initRows, some lid)
  else
    let ids := get_initial_ids_from_html hrefs
    some (ids.map (fun i => pyOr (get_detail_for_id (detailResp i) i) (Json.obj [(['i', 'd'], Json.str i)])),
          ids.getLast?.map Json.str)

/-- Outcome of `main`: the rows handed to `write_csv`, or an uncaught
`HTTPError` (the `__main__` guard prints and exits 1), or an uncaught lookup
error, or fuel exhaustion. -/
inductive MainRes where
  | csv (rows : List Json)
  | exitHttp
  | crashKey
  | fuelOut

/-- scrape.py `main` (lines 241-277) plus the `__main__` guard (279-285). -/
def mainModel (r1 r2 : Resp) (hrefs : List (List Char)) (detailResp : List Char → Resp)
    (pages : Nat → Resp) (fuel : Nat) : MainRes :=
  match mainInitState r1 r2 hrefs detailResp with
  | none => .crashKey
  | some (rows0, lid0) =>
    match crawlLoop pages fuel 0 lid0 rows0 with
    | .done rows _ => .csv rows
    | .httpErr => .exitHttp
    | .keyErr => .crashKey
    | .fuelOut => .fuelOut

/-! ### Supporting lemmas for the claims -/

/-- A well-formed string body under the scanners' escape rules: no bare
`'"'` or `'\'`; a backslash always consumes the following character (so an
escaped quote stays inside the string). -/
def isStrBody : List Char → Bool
  | [] => true
  | c :: rest =>
    if c = '\\' then
      match rest with
      | [] => false
      | _ :: rest' => isStrBody rest'
    else !(c == '"') && isStrBody rest

theorem skipStr_strBody_aux : ∀ (n : Nat) (s : List Char), s.length ≤ n →
    isStrBody s = true → ∀ rest, skipStr (s ++ '"' :: rest) = some (s ++ ['"'], rest) := by
  intro n
  induction n with
  | zero =>
    intro s hl _ rest
    have : s = [] := List.eq_nil_of_length_eq_zero (Nat.le_zero.mp hl)
    subst this
    rfl
  | succ n ih =>
    intro s hl hb rest
    cases s with
    | nil => rfl
    | cons c t =>
      rw [isStrBody.eq_def] at hb
      simp only at hb
      by_cases hc : c = '\\'
      · subst hc
        rw [if_pos rfl] at hb
        cases t with
        | nil => simp at hb
        | cons d t' =>
          simp only at hb
          have hlen : t'.length ≤ n := by
            simp only [List.length_cons] at hl; omega
          have hrec := ih t' hlen hb rest
          show (skipStrEsc (d :: (t' ++ '"' :: rest))).map
              (fun pr => ('\\' :: pr.1, pr.2)) = _
          rw [skipStrEsc.eq_def]
          dsimp only
          rw [hrec]
          simp
      · rw [if_neg hc] at hb
        simp only [Bool.and_eq_true, Bool.not_eq_true', beq_eq_false_iff_ne, ne_eq] at hb
        have hlen : t.length ≤ n := by
          simp only [List.length_cons] at hl; omega
        have hrec := ih t hlen hb.2 rest
        rw [List.cons_append, skipStr.eq_def]
        dsimp only
        rw [if_neg hb.1, if_neg hc, hrec]
        simp

theorem skipStr_strBody {s : List Char} (hb : isStrBody s = true) (rest : List Char) :
    skipStr (s ++ '"' :: rest) = some (s ++ ['"'], rest) :=
  skipStr_strBody_aux s.length s (Nat.le_refl _) hb rest

/-- Away from line starts, the chunk-prefix strip leaves newline-free text alone. -/
theorem stripGo_id_of_no_nl : ∀ l : List Char, '\n' ∉ l → stripGo false l = l := by
  intro l
  induction l with
  | nil => intro _; rfl
  | cons c t ih =>
    intro hmem
    have hc : ¬c = '\n' := fun h => hmem (h ▸ List.mem_cons_self c t)
    rw [stripGo_false_cons, decide_eq_false hc, ih (fun h => hmem (List.mem_cons_of_mem c h))]

theorem dedupGo_sublist : ∀ (l seen : List (List Char)), (dedupGo seen l).Sublist l := by
  intro l
  induction l with
  | nil => intro seen; exact List.Sublist.refl []
  | cons i rest ih =>
    intro seen
    rw [dedupGo]
    split
    · exact (ih seen).cons i
    · exact (ih (i :: seen)).cons₂ i

theorem dedupGo_not_mem_seen :
    ∀ (l seen : List (List Char)) (x : List Char), x ∈ dedupGo seen l → x ∉ seen := by
  intro l
  induction l with
  | nil => intro seen x hx; simp [dedupGo] at hx
  | cons i rest ih =>
    intro seen x hx
    rw [dedupGo] at hx
    split at hx
    · exact ih seen x hx
    · rcases List.mem_cons.mp hx with h | h
      · subst h; assumption
      · intro hseen
        exact ih (i :: seen) x h (List.mem_cons_of_mem i hseen)

theorem dedupGo_nodup : ∀ (l seen : List (List Char)), (dedupGo seen l).Nodup := by
  intro l
  induction l with
  | nil => intro seen; exact List.nodup_nil
  | cons i rest ih =>
    intro seen
    rw [dedupGo]
    split
    · exact ih seen
    · refine List.nodup_cons.mpr ⟨?_, ih (i :: seen)⟩
      intro hmem
      exact dedupGo_not_mem_seen rest (i :: seen) i hmem (List.mem_cons_self i seen)

theorem dedupGo_complete :
    ∀ (l seen : List (List Char)) (x : List Char), x ∈ l → x ∈ dedupGo seen l ∨ x ∈ seen := by
  intro l
  induction l with
  | nil => intro seen x hx; exact absurd hx (List.not_mem_nil x)
  | cons i rest ih =>
    intro seen x hx
    rw [dedupGo]
    rcases List.mem_cons.mp hx with h | h
    · subst h
      split
      · right; assumption
      · left; exact List.mem_cons_self x _
    · split
      · exact ih seen x h
      · rcases ih (i :: seen) x h with h2 | h2
        · left; exact List.mem_cons_of_mem i h2
        · rcases List.mem_cons.mp h2 with h3 | h3
          · subst h3; left; exact List.mem_cons_self x _
          · right; exact h3

/-- The backward walk stops at the first `'{'` to the left of the anchor
(matched or not), keeping the characters in between. -/
theorem walkBack_nearest_brace :
    ∀ (revPre suf rest' : List Char),
      revPre.dropWhile (fun c => c != '{') = '{' :: rest' →
      walkBackAux revPre suf =
        '{' :: ((revPre.takeWhile (fun c => c != '{')).reverse ++ suf) := by
  intro revPre
  induction revPre with
  | nil => intro suf rest' h; simp at h
  | cons c rest ih =>
    intro suf rest' h
    by_cases hc : c = '{'
    · subst hc
      rw [walkBackAux]
      simp
    · rw [List.dropWhile_cons_of_pos (by simp [hc])] at h
      rw [walkBackAux, if_neg hc, ih (c :: suf) rest' h]
      rw [List.takeWhile_cons_of_pos (by simp [hc])]
      simp

/-! ### The claims -/

def c3Body : List Char := "0:\x7b\"datasets\":[\x7b\"id\":\"$n1\"\x7d,\x7b\"id\":\"$n2\"\x7d]\x7d".data

/-- C3: decoding the raw chunk `0:{"datasets":[{"id":"$n1"},{"id":"$n2"}]}`
with key anchor `datasets` (strip line prefixes, extract the balanced array
span, normalize tokens, parse JSON) returns exactly the sequence
`[{"id":1},{"id":2}]`. -/
theorem c3_end_to_end_decode :
    extract_json_array_from_rsc c3Body datasetsKey =
      [Json.obj [(['i', 'd'], Json.num 1 0)], Json.obj [(['i', 'd'], Json.num 2 0)]] := by
  rfl

def c2SiblingBody : List Char := "\x7b\"a\":\x7b\"x\":1\x7d,\"id\":\"V\"\x7d".data

/-- C2 counterexample: on `{"a":{"x":1},"id":"V"}` with target `V`, the
backward walk stops at the `'{'` of the *sibling* object `{"x":1}`, which
closes before the anchor; the extractor returns that sibling (it does not
even contain an `id` field), not the innermost object enclosing the anchor.
So the span start is the nearest `'{'`, not the nearest *unmatched* `'{'`. -/
theorem c2_counterexample :
    extract_first_object_with_id c2SiblingBody ['V']
        = some (Json.obj [(['x'], Json.num 1 0)]) ∧
    jLookup (Json.obj [(['x'], Json.num 1 0)]) (['i', 'd']) = none := by
  exact ⟨rfl, rfl⟩

def c2NestedBody : List Char := "\x7b\"outer\":\x7b\"id\":\"abc123\",\"y\":2\x7d\x7d".data

/-- C2 amended: anchor-by-value extraction starts its span at the nearest
`'{'` found scanning backward from the anchor — matched or not — keeping the
characters in between; consequently, when no sibling object intervenes
between that `'{'` and the anchor (e.g. the anchor's object starts with the
`"id"` field), the innermost object enclosing the anchor is returned, as on
the nested example, but a sibling object closing before the anchor can be
returned instead (see the counterexample). -/
theorem c2_amended_nearest_brace :
    (∀ (revPre suf rest' : List Char),
      revPre.dropWhile (fun c => c != '{') = '{' :: rest' →
      walkBackAux revPre suf =
        '{' :: ((revPre.takeWhile (fun c => c != '{')).reverse ++ suf)) ∧
    extract_first_object_with_id c2NestedBody "abc123".data
      = some (Json.obj [(['i', 'd'], Json.str "abc123".data), (['y'], Json.num 2 0)]) :=
  ⟨walkBack_nearest_brace, rfl⟩

/-- C2 amended, witness: the first conjunct applied at a concrete backward
context containing a `'{'`. -/
theorem c2_amended_witness :
    walkBackAux ['a', '{', 'b'] ['z'] =
      '{' :: ((['a', '{', 'b'].takeWhile (fun c => c != '{')).reverse ++ ['z']) :=
  c2_amended_nearest_brace.1 ['a', '{', 'b'] ['z'] ['b'] rfl

def c10BodyEmpty : List Char := "0:\x7b\"datasets\":[],\"x\":1\x7d".data

def c10BodyMiss : List Char := "0:\x7b\"nothing\":1\x7d".data

/-- C10: a decode miss and a genuinely empty `"datasets":[]` page are both
the empty list at the extractor's interface, and `main` (whose fallback
branch is taken exactly when the initial rows are empty) behaves identically
on the two first-page bodies, whatever the fallback inputs and later pages. -/
theorem c10_empty_indistinguishable :
    extract_json_array_from_rsc c10BodyEmpty datasetsKey = [] ∧
    extract_json_array_from_rsc c10BodyMiss datasetsKey = [] ∧
    ∀ (st : Nat) (hrefs : List (List Char)) (detailResp : List Char → Resp)
      (pages : Nat → Resp) (fuel : Nat),
      mainModel ⟨st, c10BodyEmpty⟩ ⟨st, c10BodyEmpty⟩ hrefs detailResp pages fuel =
        mainModel ⟨st, c10BodyMiss⟩ ⟨st, c10BodyMiss⟩ hrefs detailResp pages fuel := by
  refine ⟨rfl, rfl, ?_⟩
  intro st hrefs detailResp pages fuel
  have hA : get_initial_via_post ⟨st, c10BodyEmpty⟩ ⟨st, c10BodyEmpty⟩ = [] := by
    unfold get_initial_via_post
    dsimp only
    rw [show extract_json_array_from_rsc c10BodyEmpty datasetsKey = [] from rfl]
    simp
  have hB : get_initial_via_post ⟨st, c10BodyMiss⟩ ⟨st, c10BodyMiss⟩ = [] := by
    unfold get_initial_via_post
    dsimp only
    rw [show extract_json_array_from_rsc c10BodyMiss datasetsKey = [] from rfl]
    simp
  unfold mainModel mainInitState
  rw [hA, hB]

/-- C8: the Fallback Discoverer keeps only hrefs matching
`/datasets/<id>` (lower-case alphanumeric id), in order of first appearance
(a sublist of the matches, missing nothing the de-duplication pass sees),
with no duplicates, truncated to the page size 24; on the three-link markup
it yields `["a1","a2"]` and on a document with no matching links `[]`. -/
theorem c8_fallback_discoverer :
    (∀ hrefs : List (List Char),
      (get_initial_ids_from_html hrefs).Sublist (hrefs.filterMap matchDatasetHref) ∧
      (get_initial_ids_from_html hrefs).Nodup ∧
      (get_initial_ids_from_html hrefs).length ≤ PAGE_LIMIT ∧
      ∀ x ∈ hrefs.filterMap matchDatasetHref,
        x ∈ dedupGo [] (hrefs.filterMap matchDatasetHref)) ∧
    get_initial_ids_from_html
        ["/datasets/a1".data, "/datasets/a2".data, "/datasets/a1".data]
      = ["a1".data, "a2".data] ∧
    get_initial_ids_from_html ["/about".data, "/datasets/".data, "/datasets/UP".data] = [] := by
  refine ⟨?_, rfl, rfl⟩
  intro hrefs
  refine ⟨?_, ?_, ?_, ?_⟩
  · exact (List.take_sublist _ _).trans (dedupGo_sublist _ [])
  · exact (dedupGo_nodup _ []).sublist (List.take_sublist _ _)
  · exact List.length_take_le _ _
  · intro x hx
    rcases dedupGo_complete _ [] x hx with h | h
    · exact h
    · exact absurd h (List.not_mem_nil x)

/-- C6: on any input, a missing anchor, a depth scan that never returns to
zero before the input ends, or a normalized span that fails to parse, each
yield the empty list (by-key mode) or `none` (by-value mode); the extractors
are total functions and never return a truncated span or partial record. -/
theorem c6_decode_miss_safe :
    (∀ body key, searchKey key (strip_chunk_prefixes body) = none →
      extract_json_array_from_rsc body key = []) ∧
    (∀ body key suf, searchKey key (strip_chunk_prefixes body) = some suf →
      scanBalanced '[' ']' suf 0 = none →
      extract_json_array_from_rsc body key = []) ∧
    (∀ body key span, find_array_span body key = some span →
      json_loads (normalize_rsc_tokens span) = none →
      extract_json_array_from_rsc body key = []) ∧
    (∀ body target, findSplitGo (idAnchor target) [] (strip_chunk_prefixes body) = none →
      extract_first_object_with_id body target = none) ∧
    (∀ body target revPre suf,
      findSplitGo (idAnchor target) [] (strip_chunk_prefixes body) = some (revPre, suf) →
      scanBalanced '{' '}' (walkBackAux revPre suf) 0 = none →
      extract_first_object_with_id body target = none) ∧
    (∀ body target revPre suf span,
      findSplitGo (idAnchor target) [] (strip_chunk_prefixes body) = some (revPre, suf) →
      scanBalanced '{' '}' (walkBackAux revPre suf) 0 = some span →
      json_loads (normalize_rsc_tokens span) = none →
      extract_first_object_with_id body target = none) := by
  refine ⟨?_, ?_, ?_, ?_, ?_, ?_⟩
  · intro body key h
    unfold extract_json_array_from_rsc find_array_span
    rw [h]
  · intro body key suf h1 h2
    unfold extract_json_array_from_rsc find_array_span
    rw [h1]
    dsimp only
    rw [h2]
  · intro body key span h1 h2
    unfold extract_json_array_from_rsc
    rw [h1]
    dsimp only
    rw [h2]
  · intro body target h
    unfold extract_first_object_with_id
    rw [h]
  · intro body target revPre suf h1 h2
    unfold extract_first_object_with_id
    rw [h1]
    dsimp only
    rw [h2]
  · intro body target revPre suf span h1 h2 h3
    unfold extract_first_object_with_id
    rw [h1]
    dsimp only
    rw [h2]
    dsimp only
    rw [h3]

/-- C6 witness: the six miss modes at concrete inputs (no anchor, an
unbalanced span, invalid JSON after normalization, in each extractor mode). -/
theorem c6_witness :
    extract_json_array_from_rsc "no anchor here".data datasetsKey = [] ∧
    extract_json_array_from_rsc "\x7b\"datasets\":[1,2".data datasetsKey = [] ∧
    extract_json_array_from_rsc "\x7b\"datasets\":[$bad!]\x7d".data datasetsKey = [] ∧
    extract_first_object_with_id "no anchor".data ['V'] = none ∧
    extract_first_object_with_id "\x7b\"id\":\"V\" unbalanced".data ['V'] = none ∧
    extract_first_object_with_id "\x7b\"id\":\"V\",bad\x7d".data ['V'] = none :=
  ⟨c6_decode_miss_safe.1 "no anchor here".data datasetsKey (by rfl),
   c6_decode_miss_safe.2.1 "\x7b\"datasets\":[1,2".data datasetsKey "[1,2".data
     (by rfl) (by rfl),
   c6_decode_miss_safe.2.2.1 "\x7b\"datasets\":[$bad!]\x7d".data datasetsKey
     "[$bad!]".data (by rfl) (by rfl),
   c6_decode_miss_safe.2.2.2.1 "no anchor".data ['V'] (by rfl),
   c6_decode_miss_safe.2.2.2.2.1 "\x7b\"id\":\"V\" unbalanced".data ['V'] ['\x7b']
     "\"id\":\"V\" unbalanced".data (by rfl) (by rfl),
   c6_decode_miss_safe.2.2.2.2.2 "\x7b\"id\":\"V\",bad\x7d".data ['V'] ['\x7b']
     "\"id\":\"V\",bad\x7d".data "\x7b\"id\":\"V\",bad\x7d".data
     (by rfl) (by rfl) (by rfl)⟩

def c1PageBody : List Char := "0:\x7b\"datasets\":[\x7b\"id\":\"a1\"\x7d]\x7d".data

def c1OkResp : Resp := ⟨200, c1PageBody⟩

def c1ErrResp : Resp := ⟨500, []⟩

/-- C1 counterexample: the first page decodes one record; the next fetch
raises; the exception propagates out of the loop in `main`, so `write_csv`
is never reached and the accumulated record is *not* handed to the output
boundary — the run ends in the error exit, which is no `csv` outcome. -/
theorem c1_counterexample :
    mainModel c1OkResp c1OkResp [] (fun _ => c1ErrResp) (fun _ => c1ErrResp) 5
        = MainRes.exitHttp ∧
    ∀ rows : List Json, MainRes.exitHttp ≠ MainRes.csv rows := by
  refine ⟨rfl, ?_⟩
  intro rows h
  exact MainRes.noConfusion h

/-- C1 amended: accumulated rows reach the CSV output boundary exactly when
the pagination loop terminates normally; a transport failure inside the loop
surfaces as the error exit and the accumulated rows are discarded, never
written. -/
theorem c1_amended_failure_discards (r1 r2 : Resp) (hrefs : List (List Char))
    (detailResp : List Char → Resp) (pages : Nat → Resp) (fuel : Nat)
    (rows0 : List Json) (lid0 : Option Json)
    (hInit : mainInitState r1 r2 hrefs detailResp = some (rows0, lid0)) :
    (crawlLoop pages fuel 0 lid0 rows0 = LoopRes.httpErr →
      mainModel r1 r2 hrefs detailResp pages fuel = MainRes.exitHttp) ∧
    (∀ rows n, crawlLoop pages fuel 0 lid0 rows0 = LoopRes.done rows n →
      mainModel r1 r2 hrefs detailResp pages fuel = MainRes.csv rows) := by
  constructor
  · intro h
    unfold mainModel
    rw [hInit]
    dsimp only
    rw [h]
  · intro rows n h
    unfold mainModel
    rw [hInit]
    dsimp only
    rw [h]

/-- C1 amended, witness: the failure half at the counterexample's inputs. -/
theorem c1_amended_witness :
    mainModel c1OkResp c1OkResp [] (fun _ => c1ErrResp) (fun _ => c1ErrResp) 5
      = MainRes.exitHttp :=
  (c1_amended_failure_discards c1OkResp c1OkResp [] (fun _ => c1ErrResp)
      (fun _ => c1ErrResp) 5
      [Json.obj [(['i', 'd'], Json.str ['a', '1'])]] (some (Json.str ['a', '1']))
      rfl).1 rfl

/-- C7: with the cursor truthy, as soon as a fetched page decodes to an
empty list or its computed next cursor compares equal to the supplied
cursor, the loop returns the rows accumulated so far after exactly this one
further call: the stalled page's rows are not appended and no later fetch is
made. -/
theorem c7_stall_guard (pages : Nat → Resp) (fuel k : Nat) (lastId : Json)
    (acc rows : List Json) (nextLast : Option Json)
    (ht : pyTruthy lastId = true)
    (hpl : post_load_more (pages k) = LoadRes.ok rows nextLast)
    (hstop : rows.isEmpty = true ∨ pyEqOpt nextLast (some lastId) = true) :
    crawlLoop pages (fuel + 1) k (some lastId) acc = LoopRes.done acc (k + 1) := by
  rw [crawlLoop]
  rw [show pyTruthyOpt (some lastId) = true from ht]
  simp only [Bool.not_true, Bool.false_eq_true, if_false]
  rw [hpl]
  rcases hstop with h | h
  · simp [h]
  · simp [h]

def c7StallBody : List Char := "0:\x7b\"datasets\":[\x7b\"id\":\"a1\"\x7d]\x7d".data

/-- C7 witness: a mocked endpoint returns a page whose only record has the
same identifier as the supplied cursor; the loop stops after exactly that
one call with nothing appended. -/
theorem c7_witness :
    crawlLoop (fun _ => ⟨200, c7StallBody⟩) 4 0 (some (Json.str ['a', '1'])) []
      = LoopRes.done [] 1 :=
  c7_stall_guard (fun _ => ⟨200, c7StallBody⟩) 3 0 (Json.str ['a', '1']) []
    [Json.obj [(['i', 'd'], Json.str ['a', '1'])]] (some (Json.str ['a', '1']))
    (by rfl) (by rfl) (Or.inr (by rfl))

/-- C9: in the fallback branch (empty first page), the accumulated sequence
is exactly one record per seed identifier, in order — the detail decode when
it yields a truthy value, else the minimal record `{"id": <identifier>}`; in
particular a failed (or falsy) detail decode still contributes the minimal
record. -/
theorem c9_fallback_minimal_records (r1 r2 : Resp) (hrefs : List (List Char))
    (detailResp : List Char → Resp)
    (hEmpty : get_initial_via_post r1 r2 = []) :
    mainInitState r1 r2 hrefs detailResp =
      some ((get_initial_ids_from_html hrefs).map
              (fun i => pyOr (get_detail_for_id (detailResp i) i)
                 (Json.obj [(['i', 'd'], Json.str i)])),
            (get_initial_ids_from_html hrefs).getLast?.map Json.str) ∧
    (∀ rows0 lid0,
      mainInitState r1 r2 hrefs detailResp = some (rows0, lid0) →
      rows0.length = (get_initial_ids_from_html hrefs).length ∧
      (∀ i ∈ get_initial_ids_from_html hrefs,
        get_detail_for_id (detailResp i) i = none →
        Json.obj [(['i', 'd'], Json.str i)] ∈ rows0) ∧
      (∀ i ∈ get_initial_ids_from_html hrefs, ∀ v,
        get_detail_for_id (detailResp i) i = some v → pyTruthy v = false →
        Json.obj [(['i', 'd'], Json.str i)] ∈ rows0)) := by
  have hmain : mainInitState r1 r2 hrefs detailResp =
      some ((get_initial_ids_from_html hrefs).map
              (fun i => pyOr (get_detail_for_id (detailResp i) i)
                 (Json.obj [(['i', 'd'], Json.str i)])),
            (get_initial_ids_from_html hrefs).getLast?.map Json.str) := by
    unfold mainInitState
    rw [hEmpty]
    rfl
  refine ⟨hmain, ?_⟩
  intro rows0 lid0 h
  rw [hmain] at h
  simp only [Option.some.injEq, Prod.mk.injEq] at h
  obtain ⟨hrows, -⟩ := h
  subst hrows
  refine ⟨List.length_map _ _, ?_, ?_⟩
  · intro i hi hdet
    have : pyOr (get_detail_for_id (detailResp i) i)
        (Json.obj [(['i', 'd'], Json.str i)]) = Json.obj [(['i', 'd'], Json.str i)] := by
      rw [pyOr.eq_def, hdet]
    exact this ▸ List.mem_map_of_mem _ hi
  · intro i hi v hdet hfalsy
    have : pyOr (get_detail_for_id (detailResp i) i)
        (Json.obj [(['i', 'd'], Json.str i)]) = Json.obj [(['i', 'd'], Json.str i)] := by
      rw [pyOr.eq_def, hdet]
      dsimp only
      rw [hfalsy]
      rfl
    exact this ▸ List.mem_map_of_mem _ hi

/-- C9 witness: two seed identifiers whose detail fetches both 404; both
contribute their minimal records. -/
theorem c9_witness :
    mainInitState ⟨200, ['x']⟩ ⟨200, ['x']⟩
        ["/datasets/a1".data, "/datasets/b2".data] (fun _ => ⟨404, []⟩) =
      some ((get_initial_ids_from_html ["/datasets/a1".data, "/datasets/b2".data]).map
              (fun i => pyOr (get_detail_for_id ⟨404, []⟩ i)
                 (Json.obj [(['i', 'd'], Json.str i)])),
            (get_initial_ids_from_html
                ["/datasets/a1".data, "/datasets/b2".data]).getLast?.map Json.str) :=
  (c9_fallback_minimal_records ⟨200, ['x']⟩ ⟨200, ['x']⟩
      ["/datasets/a1".data, "/datasets/b2".data] (fun _ => ⟨404, []⟩) (by rfl)).1

theorem noDollar_append {l1 l2 : List Char} (h1 : '$' ∉ l1) (h2 : '$' ∉ l2) :
    '$' ∉ l1 ++ l2 :=
  fun h => Or.elim (List.mem_append.mp h) h1 h2

theorem noDollar_cons {c : Char} {l : List Char} (hc : '$' ≠ c) (hl : '$' ∉ l) :
    '$' ∉ c :: l :=
  fun h => Or.elim (List.mem_cons.mp h) hc hl

/-- A quote-anchored pass never matches at a position directly followed by a
`'$'`-free tail. -/
theorem mquote_none_head {m : List Char → Option (List Char × List Char)}
    (hshape : ∀ cs x, m cs = some x → ∃ t, cs = '"' :: '$' :: t)
    (c : Char) {post : List Char} (hpost : '$' ∉ post) : m (c :: post) = none := by
  cases hmc : m (c :: post) with
  | none => rfl
  | some x =>
    obtain ⟨t, ht⟩ := hshape _ _ hmc
    injection ht with h1 h2
    rw [h2] at hpost
    exact absurd (List.mem_cons_self '$' t) hpost

def c5Payload : List Char := "2024-01-01T00:00:00Z".data

/-- C5: in any `'$'`-free context, the quoted numeric token `"$n42"` is
rewritten to the bare numeral `42`, and the quoted date token
`"$D2024-01-01T00:00:00Z"` to the quoted string `"2024-01-01T00:00:00Z"`
with the payload kept verbatim. -/
theorem c5_token_normalization (pre post : List Char)
    (hpre : '$' ∉ pre) (hpost : '$' ∉ post) :
    normalize_rsc_tokens (pre ++ ('"' :: '$' :: 'n' :: '4' :: '2' :: '"' :: post))
      = pre ++ ('4' :: '2' :: post) ∧
    normalize_rsc_tokens (pre ++ ('"' :: '$' :: 'D' :: (c5Payload ++ '"' :: post)))
      = pre ++ ('"' :: (c5Payload ++ '"' :: post)) := by
  have hqn : ∀ t : List Char, ('"' :: '$' :: 'n' :: '4' :: '2' :: '"' :: post) ≠ '$' :: t := by
    intro t ht
    injection ht with h1 _
    exact absurd h1 (by decide)
  have hqd : ∀ t : List Char, ('"' :: '$' :: 'D' :: (c5Payload ++ '"' :: post)) ≠ '$' :: t := by
    intro t ht
    injection ht with h1 _
    exact absurd h1 (by decide)
  have hpayfree : '$' ∉ c5Payload := by decide
  constructor
  · -- the numeric token
    have hfree : '$' ∉ pre ++ ('4' :: '2' :: post) :=
      noDollar_append hpre (noDollar_cons (by decide) (noDollar_cons (by decide) hpost))
    have s1 : reSub mQN (pre ++ ('"' :: '$' :: 'n' :: '4' :: '2' :: '"' :: post))
        = pre ++ ('4' :: '2' :: post) := by
      rw [reSub_append_quote (fun _ _ h => mQN_shape h) hpre hqn]
      rw [reSub_cons_some mQN_shrink
        (show mQN ('"' :: '$' :: 'n' :: '4' :: '2' :: '"' :: post)
          = some (['4', '2'], post) from rfl)]
      rw [reSub_id_quote (fun _ _ h => mQN_shape h) hpost]
      rfl
    unfold normalize_rsc_tokens
    rw [s1,
      reSub_id_dollar (fun _ _ h => mN_shape h) hfree,
      reSub_id_quote (fun _ _ h => mQD_shape h) hfree,
      reSub_id_dollar (fun _ _ h => mD_shape h) hfree,
      reSub_id_quote (fun _ _ h => mQRef_shape h) hfree,
      reSub_id_dollar (fun _ _ h => mRef_shape h) hfree]
  · -- the date token
    have hfree : '$' ∉ pre ++ ('"' :: (c5Payload ++ '"' :: post)) :=
      noDollar_append hpre (noDollar_cons (by decide)
        (noDollar_append hpayfree (noDollar_cons (by decide) hpost)))
    have hDfree : '$' ∉ ('D' :: c5Payload) := noDollar_cons (by decide) hpayfree
    have hq2 : ∀ t : List Char, ('"' :: post) ≠ '$' :: t := by
      intro t ht
      injection ht with h1 _
      exact absurd h1 (by decide)
    -- pass 1 (`"$n<digits>"`): no match anywhere
    have s1 : reSub mQN (pre ++ ('"' :: '$' :: 'D' :: (c5Payload ++ '"' :: post)))
        = pre ++ ('"' :: '$' :: 'D' :: (c5Payload ++ '"' :: post)) := by
      rw [reSub_append_quote (fun _ _ h => mQN_shape h) hpre hqd]
      rw [reSub_cons_none (show mQN ('"' :: '$' :: 'D' :: (c5Payload ++ '"' :: post))
        = none from rfl)]
      rw [reSub_cons_none (show mQN ('$' :: 'D' :: (c5Payload ++ '"' :: post))
        = none from rfl)]
      rw [show ('D' :: (c5Payload ++ '"' :: post)) = ('D' :: c5Payload) ++ ('"' :: post)
        from by simp]
      rw [reSub_append_quote (fun _ _ h => mQN_shape h) hDfree hq2]
      rw [reSub_cons_none (mquote_none_head (fun _ _ h => mQN_shape h) '"' hpost)]
      rw [reSub_id_quote (fun _ _ h => mQN_shape h) hpost]
    -- pass 2 (`$n<digits>`): no match anywhere
    have s2 : reSub mN (pre ++ ('"' :: '$' :: 'D' :: (c5Payload ++ '"' :: post)))
        = pre ++ ('"' :: '$' :: 'D' :: (c5Payload ++ '"' :: post)) := by
      rw [reSub_append_dollar (fun _ _ h => mN_shape h) _ hpre]
      rw [reSub_cons_none (show mN ('"' :: '$' :: 'D' :: (c5Payload ++ '"' :: post))
        = none from rfl)]
      rw [reSub_cons_none (show mN ('$' :: 'D' :: (c5Payload ++ '"' :: post))
        = none from rfl)]
      rw [reSub_id_dollar (fun _ _ h => mN_shape h)
        (noDollar_cons (by decide)
          (noDollar_append hpayfree (noDollar_cons (by decide) hpost)))]
    -- pass 3 (`"$D<payload>"`): rewrites the token
    have s3 : reSub mQD (pre ++ ('"' :: '$' :: 'D' :: (c5Payload ++ '"' :: post)))
        = pre ++ ('"' :: (c5Payload ++ '"' :: post)) := by
      rw [reSub_append_quote (fun _ _ h => mQD_shape h) hpre hqd]
      rw [reSub_cons_some mQD_shrink
        (show mQD ('"' :: '$' :: 'D' :: (c5Payload ++ '"' :: post))
          = some ('"' :: c5Payload ++ ['"'], post) from rfl)]
      rw [reSub_id_quote (fun _ _ h => mQD_shape h) hpost]
      simp
    unfold normalize_rsc_tokens
    rw [s1, s2, s3,
      reSub_id_dollar (fun _ _ h => mD_shape h) hfree,
      reSub_id_quote (fun _ _ h => mQRef_shape h) hfree,
      reSub_id_dollar (fun _ _ h => mRef_shape h) hfree]

/-- C5 witness: both rewrites inside the `'$'`-free context `{"a": _ }`. -/
theorem c5_witness :
    normalize_rsc_tokens ("\x7b\"a\":".data
        ++ ('"' :: '$' :: 'n' :: '4' :: '2' :: '"' :: "\x7d".data))
      = "\x7b\"a\":".data ++ ('4' :: '2' :: "\x7d".data) ∧
    normalize_rsc_tokens ("\x7b\"a\":".data
        ++ ('"' :: '$' :: 'D' :: (c5Payload ++ '"' :: "\x7d".data)))
      = "\x7b\"a\":".data ++ ('"' :: (c5Payload ++ '"' :: "\x7d".data)) :=
  c5_token_normalization "\x7b\"a\":".data "\x7d".data (by decide) (by decide)

theorem chr_not_mem_append {a : Char} {l1 l2 : List Char} (h1 : a ∉ l1) (h2 : a ∉ l2) :
    a ∉ l1 ++ l2 :=
  fun h => Or.elim (List.mem_append.mp h) h1 h2

theorem chr_not_mem_cons {a c : Char} {l : List Char} (hc : a ≠ c) (hl : a ∉ l) :
    a ∉ c :: l :=
  fun h => Or.elim (List.mem_cons.mp h) hc hl

/-- C4: for every string-literal body `s` (arbitrary brackets and braces,
escaped quotes allowed, no raw newline), the by-key extractor applied to
`{"datasets":["<s>"],"x":1}` locates exactly the span `["<s>"]`: brackets
inside the quoted string are not counted toward nesting depth, an escaped
quote does not terminate the string, and the span boundaries do not depend
on the string's content. -/
theorem c4_span_ignores_strings (s : List Char)
    (hs : isStrBody s = true) (hnl : '\n' ∉ s) :
    find_array_span ("\x7b\"datasets\":[\"".data ++ (s ++ "\"],\"x\":1\x7d".data))
        datasetsKey
      = some ('[' :: '"' :: (s ++ ['"', ']'])) := by
  have hnl' : '\n' ∉ "\"datasets\":[\"".data ++ (s ++ "\"],\"x\":1\x7d".data) :=
    chr_not_mem_append (by decide) (chr_not_mem_append hnl (by decide))
  have hstrip : strip_chunk_prefixes
      ("\x7b\"datasets\":[\"".data ++ (s ++ "\"],\"x\":1\x7d".data))
      = "\x7b\"datasets\":[\"".data ++ (s ++ "\"],\"x\":1\x7d".data) := by
    unfold strip_chunk_prefixes
    rw [show ("\x7b\"datasets\":[\"".data ++ (s ++ "\"],\"x\":1\x7d".data))
      = '\x7b' :: ("\"datasets\":[\"".data ++ (s ++ "\"],\"x\":1\x7d".data)) from rfl]
    rw [stripGo_true_cons_none (by rfl)]
    rw [show (decide ('\x7b' = '\n')) = false from rfl]
    rw [stripGo_id_of_no_nl _ hnl']
  have hsearch : searchKey datasetsKey
      ("\x7b\"datasets\":[\"".data ++ (s ++ "\"],\"x\":1\x7d".data))
      = some ('[' :: ('"' :: (s ++ "\"],\"x\":1\x7d".data))) := rfl
  have hskip : skipStr (s ++ "\"],\"x\":1\x7d".data)
      = some (s ++ ['"'], "],\"x\":1\x7d".data) := by
    rw [show (s ++ "\"],\"x\":1\x7d".data) = s ++ '"' :: "],\"x\":1\x7d".data from rfl]
    exact skipStr_strBody hs _
  have hclose : scanBalanced '[' ']' ("],\"x\":1\x7d".data) (0 + 1) = some [']'] := by
    rw [show ("],\"x\":1\x7d".data) = ']' :: ",\"x\":1\x7d".data from rfl]
    rw [scanBalanced_cons]
    rw [if_neg (by decide), if_pos rfl, if_pos (by decide)]
  have hstr : scanBalanced '[' ']' ('"' :: (s ++ "\"],\"x\":1\x7d".data)) (0 + 1)
      = some ('"' :: (s ++ ['"', ']'])) := by
    rw [scanBalanced_cons]
    rw [if_neg (by decide), if_neg (by decide), if_pos rfl]
    rw [hskip]
    dsimp only
    rw [hclose]
    simp
  have hscan : scanBalanced '[' ']' ('[' :: ('"' :: (s ++ "\"],\"x\":1\x7d".data))) 0
      = some ('[' :: '"' :: (s ++ ['"', ']'])) := by
    rw [scanBalanced_cons]
    rw [if_pos rfl]
    rw [hstr]
    rfl
  unfold find_array_span
  rw [hstrip, hsearch]
  dsimp only
  exact hscan

/-- C4 witness: a string body containing braces, brackets and an escaped
quote; the span is the anchored array around it. -/
theorem c4_witness :
    find_array_span ("\x7b\"datasets\":[\"".data
        ++ (['a', '\x7b', ']', '\x7d', '[', '\\', '"', 'x'] ++ "\"],\"x\":1\x7d".data))
        datasetsKey
      = some ('[' :: '"' :: (['a', '\x7b', ']', '\x7d', '[', '\\', '"', 'x'] ++ ['"', ']'])) :=
  c4_span_ignores_strings ['a', '\x7b', ']', '\x7d', '[', '\\', '"', 'x']
    (by rfl) (by decide)

/-- C8 witness: the universal part applied at a concrete document — the
de-duplication pass loses no matching identifier. -/
theorem c8_witness :
    "a1".data ∈ dedupGo []
      ((["/datasets/a1".data, "/datasets/a2".data]).filterMap matchDatasetHref) :=
  (c8_fallback_discoverer.1 ["/datasets/a1".data, "/datasets/a2".data]).2.2.2
    "a1".data (by decide)
